import Mathlib

/-!
Shallow embedding of the context-assembly and reply-generation pipeline of
`src/app.py` (a Discord persona-mimic bot): message normalization
(`clean_messages`), token-budget context trimming (`limit_context`),
history formatting (`format_history_for_prompt`), the bounded-retry
generation loop of `gen_reply`, and the session-state transitions of
`on_message`.

Python string primitives (`str.strip`, `str.split`, `str.startswith`,
slicing, `len`) are modelled over `List Char`; external services
(the tokenizer, the embedding index, the generation backend) are
parameters of the corresponding definitions.
-/

namespace MimicBot

/-- Python `str.strip()`: remove leading and trailing whitespace. -/
def pyStrip (s : String) : String :=
  String.mk (((s.data.dropWhile Char.isWhitespace).reverse.dropWhile
    Char.isWhitespace).reverse)

/-- Python `str.split()` with no argument: whitespace-delimited words,
empty pieces discarded. -/
def pySplitWs (s : String) : List String :=
  ((s.data.foldr (fun c acc =>
      if Char.isWhitespace c then List.cons [] acc
      else match acc with
        | [] => [[c]]
        | w :: ws => (c :: w) :: ws) []).filter (fun w => w ≠ [])).map String.mk

/-- Python `len` on a string (counts code points). -/
def pyLen (s : String) : Nat := s.data.length

/-- Python slice `s[n:]` (by code points). -/
def pyDrop (s : String) (n : Nat) : String := String.mk (s.data.drop n)

/-- Python `s.startswith(p)`. -/
def pyStartsWith (s p : String) : Bool := decide (s.data.take p.data.length = p.data)

-- sanity scratch
example : pyStrip " hi " = "hi" := by decide
example : pySplitWs "  a b" = ["a", "b"] := by decide
example : pySplitWs "   " = [] := by decide
example : pyStartsWith "You: hi" "You:" = true := by decide
example : pyDrop "You: hi" 4 = " hi" := by decide

/-! ## Token-budget context trimming (`limit_context`, app.py lines 33-41)

`tok` is the external tokenizer `estimate_tokens` (tiktoken), kept abstract.
The Python loop walks `reversed(lines)`, accumulating token counts and
breaking at the first line that would push the total over `max_tokens`,
and finally reverses the accumulator back. -/

/-- The loop body of `limit_context`, acting on the already-reversed list:
`total` is the running token count. -/
def limitAux (tok : String → Nat) (maxTokens : Nat) : Nat → List String → List String
  | _, [] => []
  | total, ln :: rest =>
    if maxTokens < total + tok ln then []
    else ln :: limitAux tok maxTokens (total + tok ln) rest

/-- `limit_context(lines, max_tokens)` from app.py. -/
def limit_context (tok : String → Nat) (lines : List String) (maxTokens : Nat) :
    List String :=
  (limitAux tok maxTokens 0 lines.reverse).reverse

/-- Total token count of a list of lines under tokenizer `tok`. -/
def tokSum (tok : String → Nat) (lines : List String) : Nat := (lines.map tok).sum

/-- `s` is a trailing suffix of `l` (the last `s.length` elements, in order). -/
def TrailsIn (s l : List String) : Prop := ∃ pre, pre ++ s = l

lemma tokSum_reverse (tok : String → Nat) (l : List String) :
    tokSum tok l.reverse = tokSum tok l := by
  simp [tokSum, List.map_reverse, List.sum_reverse]

lemma limitAux_glue (tok : String → Nat) (B : Nat) :
    ∀ (l : List String) (t : Nat), ∃ r, limitAux tok B t l ++ r = l := by
  intro l
  induction l with
  | nil => intro t; exact ⟨[], rfl⟩
  | cons ln rest ih =>
    intro t
    by_cases h : B < t + tok ln
    · exact ⟨ln :: rest, by simp [limitAux, h]⟩
    · obtain ⟨r, hr⟩ := ih (t + tok ln)
      exact ⟨r, by simp [limitAux, h, hr]⟩

lemma limitAux_le (tok : String → Nat) (B : Nat) :
    ∀ (l : List String) (t : Nat), t ≤ B →
      t + tokSum tok (limitAux tok B t l) ≤ B := by
  intro l
  induction l with
  | nil => intro t ht; simpa [limitAux, tokSum]
  | cons ln rest ih =>
    intro t ht
    by_cases h : B < t + tok ln
    · simpa [limitAux, h, tokSum]
    · have h' : t + tok ln ≤ B := Nat.le_of_not_lt h
      have := ih (t + tok ln) h'
      simp only [limitAux, h, if_false, tokSum, List.map_cons, List.sum_cons] at *
      omega

lemma limitAux_max (tok : String → Nat) (B : Nat) :
    ∀ (l : List String) (t : Nat) (p : List String),
      (∃ r, p ++ r = l) → t + tokSum tok p ≤ B →
      p.length ≤ (limitAux tok B t l).length := by
  intro l
  induction l with
  | nil =>
    intro t p hp _
    obtain ⟨r, hr⟩ := hp
    have : p = [] := by
      cases p with
      | nil => rfl
      | cons a as => simp at hr
    simp [this]
  | cons ln rest ih =>
    intro t p hp hsum
    obtain ⟨r, hr⟩ := hp
    cases p with
    | nil => simp
    | cons q qs =>
      have hq : q = ln := by
        have := congrArg (fun l => l.head?) hr
        simpa using this
      subst hq
      have hqs : qs ++ r = rest := by
        have := congrArg List.tail hr
        simpa using this
      have hsum' : (t + tok q) + tokSum tok qs ≤ B := by
        simp only [tokSum, List.map_cons, List.sum_cons] at hsum ⊢
        omega
      have hnot : ¬ B < t + tok q :=
        Nat.not_lt.mpr (le_trans (Nat.le_add_right _ _) hsum')
      have := ih (t + tok q) qs ⟨r, hqs⟩ hsum'
      simp only [limitAux, hnot, if_false, List.length_cons]
      omega

/-- C1: for every tokenizer, line list and budget, `limit_context` returns a
trailing suffix of the input, restored to original order, whose total token
count is within the budget; the suffix is maximal among all trailing
suffixes fitting the budget; and if the single most recent (last) line
alone exceeds the budget, the output is empty. -/
theorem limit_context_spec (tok : String → Nat) (lines : List String) (B : Nat) :
    TrailsIn (limit_context tok lines B) lines ∧
    tokSum tok (limit_context tok lines B) ≤ B ∧
    (∀ s, TrailsIn s lines → tokSum tok s ≤ B →
      s.length ≤ (limit_context tok lines B).length) ∧
    (∀ rest ln, lines = rest ++ [ln] → B < tok ln →
      limit_context tok lines B = []) := by
  refine ⟨?_, ?_, ?_, ?_⟩
  · obtain ⟨r, hr⟩ := limitAux_glue tok B lines.reverse 0
    refine ⟨r.reverse, ?_⟩
    rw [limit_context, ← List.reverse_append, hr, List.reverse_reverse]
  · have h := limitAux_le tok B lines.reverse 0 (Nat.zero_le B)
    rw [limit_context, tokSum_reverse]
    omega
  · intro s hs hsum
    obtain ⟨pre, hpre⟩ := hs
    have hrev : s.reverse ++ pre.reverse = lines.reverse := by
      rw [← List.reverse_append, hpre]
    have h := limitAux_max tok B lines.reverse 0 s.reverse ⟨pre.reverse, hrev⟩
      (by rw [tokSum_reverse]; omega)
    simpa [limit_context] using h
  · intro rest ln hl hB
    subst hl
    have h0 : B < 0 + tok ln := by omega
    simp [limit_context, List.reverse_append, limitAux, h0, hB]

/-- Witness for `limit_context_spec` at a concrete input: with the
character-count tokenizer and budget 1, even the most recent line `"cd"`
does not fit, so the output is empty. -/
theorem limit_context_spec_witness : limit_context pyLen ["ab", "cd"] 1 = [] :=
  (limit_context_spec pyLen ["ab", "cd"] 1).2.2.2 ["ab"] "cd" rfl (by decide)

/-! ## Transcript Normalizer (`clean_messages`, app.py lines 44-59)

A raw record is a Python dict; `sender`/`message` are `Option` to model a
possibly absent key. `m.get("message")` yields `none` for an absent key;
`m["sender"]` on an absent key raises `KeyError`; `sender.split()[0]` on a
whitespace-only sender raises `IndexError`. Raised exceptions are modelled
with `Except`. -/

structure RawRecord where
  sender : Option String
  message : Option String
deriving DecidableEq

structure CanonicalMessage where
  sender : String
  role : String
  message : String
deriving DecidableEq

inductive CleanErr where
  | keyError
  | indexError
deriving DecidableEq

/-- The dedup key `f'{m["sender"]}:{m["message"]}'` (untrimmed fields). -/
def dedupKey (sender message : String) : String := sender ++ ":" ++ message

/-- One iteration of the `clean_messages` loop body on record `m`, with the
`seen` key set and the accumulated output. -/
def cleanStep (m : RawRecord) (seen : List String) (out : List CanonicalMessage) :
    Except CleanErr (List String × List CanonicalMessage) :=
  match m.message with
  | none => Except.ok (seen, out)
  | some msg =>
    if msg = "" then Except.ok (seen, out)
    else if msg = "<Media omitted>" then Except.ok (seen, out)
    else
      match m.sender with
      | none => Except.error CleanErr.keyError
      | some s0 =>
        if dedupKey s0 msg ∈ seen then Except.ok (seen, out)
        else
          match pySplitWs (pyStrip s0) with
          | [] => Except.error CleanErr.indexError
          | role :: _ =>
            Except.ok (dedupKey s0 msg :: seen,
              out ++ [⟨pyStrip s0, role, pyStrip msg⟩])

/-- The `clean_messages` loop over the remaining records. -/
def cleanGo (seen : List String) (out : List CanonicalMessage) :
    List RawRecord → Except CleanErr (List CanonicalMessage)
  | [] => Except.ok out
  | m :: rest =>
    match cleanStep m seen out with
    | Except.error e => Except.error e
    | Except.ok (seen', out') => cleanGo seen' out' rest

/-- `clean_messages(raw)` from app.py. -/
def clean_messages (raw : List RawRecord) : Except CleanErr (List CanonicalMessage) :=
  cleanGo [] [] raw

/-- The canonical form a single record would be emitted as, were it usable
and not a duplicate (the per-record part of the loop body). -/
def canonOf (m : RawRecord) : Option CanonicalMessage :=
  match m.message with
  | none => none
  | some msg =>
    if msg = "" then none
    else if msg = "<Media omitted>" then none
    else
      match m.sender with
      | none => none
      | some s0 =>
        match pySplitWs (pyStrip s0) with
        | [] => none
        | role :: _ => some ⟨pyStrip s0, role, pyStrip msg⟩

/-- The record's message is present, non-empty and not the media sentinel
(the records the loop does not skip on its first test). -/
def UsableMsg : Option String → Prop
  | none => False
  | some t => t ≠ "" ∧ t ≠ "<Media omitted>"

instance : DecidablePred UsableMsg := by
  intro om
  cases om with
  | none => exact isFalse (fun h => h)
  | some t => exact instDecidableAnd

/-- Two canonical messages differ in their stored `(sender, message)` pair. -/
def DistinctPair (a b : CanonicalMessage) : Prop :=
  ¬ (a.sender = b.sender ∧ a.message = b.message)

-- sanity scratch
example : clean_messages [⟨some "Alice", some "hi"⟩, ⟨some "Alice", some "hi"⟩,
    ⟨some "Bob", some "<Media omitted>"⟩] =
    Except.ok [⟨"Alice", "Alice", "hi"⟩] := by rfl
example : clean_messages [⟨none, some "hi"⟩] = Except.error CleanErr.keyError := by rfl
example : clean_messages [⟨some "  ", some "hi"⟩] = Except.error CleanErr.indexError := by
  rfl
example : clean_messages [⟨some "Alice", some "   "⟩] =
    Except.ok [⟨"Alice", "Alice", ""⟩] := by rfl

/-- Exhaustive case analysis of one `clean_messages` loop iteration. -/
lemma cleanStep_cases (m : RawRecord) (seen : List String)
    (out : List CanonicalMessage) :
    (cleanStep m seen out = Except.ok (seen, out) ∧ ¬ UsableMsg m.message ∧
      canonOf m = none) ∨
    (∃ msg, m.message = some msg ∧ UsableMsg m.message ∧ m.sender = none ∧
      cleanStep m seen out = Except.error CleanErr.keyError) ∨
    (∃ s0 msg, m.sender = some s0 ∧ m.message = some msg ∧ UsableMsg m.message ∧
      dedupKey s0 msg ∈ seen ∧ cleanStep m seen out = Except.ok (seen, out)) ∨
    (∃ s0 msg, m.sender = some s0 ∧ m.message = some msg ∧ UsableMsg m.message ∧
      ¬ dedupKey s0 msg ∈ seen ∧ pySplitWs (pyStrip s0) = [] ∧
      cleanStep m seen out = Except.error CleanErr.indexError ∧ canonOf m = none) ∨
    (∃ s0 msg role tl, m.sender = some s0 ∧ m.message = some msg ∧
      UsableMsg m.message ∧ ¬ dedupKey s0 msg ∈ seen ∧
      pySplitWs (pyStrip s0) = role :: tl ∧
      canonOf m = some ⟨pyStrip s0, role, pyStrip msg⟩ ∧
      cleanStep m seen out = Except.ok (dedupKey s0 msg :: seen,
        out ++ [⟨pyStrip s0, role, pyStrip msg⟩])) := by
  rcases hm : m.message with _ | msg
  · exact Or.inl ⟨by simp [cleanStep, hm], by simp [UsableMsg, hm], by simp [canonOf, hm]⟩
  · by_cases h0 : msg = ""
    · exact Or.inl ⟨by simp [cleanStep, hm, h0], by simp [UsableMsg, hm, h0],
        by simp [canonOf, hm, h0]⟩
    · by_cases h1 : msg = "<Media omitted>"
      · exact Or.inl ⟨by simp [cleanStep, hm, h0, h1], by simp [UsableMsg, hm, h0, h1],
          by simp [canonOf, hm, h0, h1]⟩
      · have hu : UsableMsg (some msg) := ⟨h0, h1⟩
        rcases hs : m.sender with _ | s0
        · exact Or.inr (Or.inl ⟨msg, rfl, hu, rfl, by simp [cleanStep, hm, h0, h1, hs]⟩)
        · by_cases hk : dedupKey s0 msg ∈ seen
          · exact Or.inr (Or.inr (Or.inl ⟨s0, msg, rfl, rfl, hu, hk,
              by simp [cleanStep, hm, h0, h1, hs, hk]⟩))
          · rcases hw : pySplitWs (pyStrip s0) with _ | ⟨role, tl⟩
            · exact Or.inr (Or.inr (Or.inr (Or.inl ⟨s0, msg, rfl, rfl, hu, hk, hw,
                by simp [cleanStep, hm, h0, h1, hs, hk, hw],
                by simp [canonOf, hm, h0, h1, hs, hw]⟩)))
            · exact Or.inr (Or.inr (Or.inr (Or.inr ⟨s0, msg, role, tl, rfl, rfl, hu, hk,
                hw, by simp [canonOf, hm, h0, h1, hs, hw],
                by simp [cleanStep, hm, h0, h1, hs, hk, hw]⟩)))

/-- On a successful run, the loop only ever appends: the result is the
accumulator followed by a tail that is, in order, a sub-list of the
per-record canonical forms of the input. -/
lemma cleanGo_sublist :
    ∀ (raw : List RawRecord) (seen : List String) (out res : List CanonicalMessage),
      cleanGo seen out raw = Except.ok res →
      ∃ tail, res = out ++ tail ∧ List.Sublist tail (raw.filterMap canonOf) := by
  intro raw
  induction raw with
  | nil =>
    intro seen out res h
    simp only [cleanGo, Except.ok.injEq] at h
    exact ⟨[], h.symm ▸ by simp, List.nil_sublist _⟩
  | cons m rest ih =>
    intro seen out res h
    rcases cleanStep_cases m seen out with
      ⟨hstep, _, hc⟩ |
      ⟨msg, hm, hu, hs, hstep⟩ |
      ⟨s0, msg, hs, hm, hu, hk, hstep⟩ |
      ⟨s0, msg, hs, hm, hu, hk, hw, hstep, hc⟩ |
      ⟨s0, msg, role, tl, hs, hm, hu, hk, hw, hc, hstep⟩
    · simp only [cleanGo, hstep] at h
      obtain ⟨tail, htail, hsub⟩ := ih seen out res h
      exact ⟨tail, htail, by rw [List.filterMap_cons_none hc]; exact hsub⟩
    · simp [cleanGo, hstep] at h
    · simp only [cleanGo, hstep] at h
      obtain ⟨tail, htail, hsub⟩ := ih seen out res h
      refine ⟨tail, htail, ?_⟩
      cases hc : canonOf m with
      | none => rw [List.filterMap_cons_none hc]; exact hsub
      | some c =>
        rw [List.filterMap_cons_some hc]
        exact hsub.trans (List.sublist_cons_self c _)
    · simp [cleanGo, hstep] at h
    · simp only [cleanGo, hstep] at h
      obtain ⟨tail, htail, hsub⟩ := ih _ _ res h
      refine ⟨⟨pyStrip s0, role, pyStrip msg⟩ :: tail, by simp [htail], ?_⟩
      rw [List.filterMap_cons_some hc]
      exact hsub.cons₂ _

/-- The record's fields, where present, carry no surrounding whitespace
(they are fixed points of `strip`). -/
def TrimmedField (o : Option String) : Prop := ∀ s, o = some s → pyStrip s = s

instance : DecidablePred TrimmedField := by
  intro o
  cases o with
  | none => exact isTrue (fun s h => nomatch h)
  | some t =>
    exact decidable_of_iff (pyStrip t = t)
      ⟨fun h s hs => by cases hs; exact h, fun h => h t rfl⟩

def TrimmedRec (m : RawRecord) : Prop :=
  TrimmedField m.sender ∧ TrimmedField m.message

instance : DecidablePred TrimmedRec := fun _ => instDecidableAnd

/-- If a record's message is usable, its sender key is present and the
trimmed sender has a first whitespace-delimited token (so neither of the
two exceptions of the loop body can fire on it). -/
def SafeRec (m : RawRecord) : Prop :=
  UsableMsg m.message → ∃ s0, m.sender = some s0 ∧ pySplitWs (pyStrip s0) ≠ []

instance : DecidablePred SafeRec := by
  intro m
  have hd : Decidable (∃ s0, m.sender = some s0 ∧ pySplitWs (pyStrip s0) ≠ []) := by
    cases hs : m.sender with
    | none => exact isFalse (by rintro ⟨s0, h, _⟩; cases h)
    | some s0 =>
      exact decidable_of_iff (pySplitWs (pyStrip s0) ≠ [])
        ⟨fun h => ⟨s0, rfl, h⟩, fun ⟨s1, h1, h2⟩ => by cases h1; exact h2⟩
  unfold SafeRec
  infer_instance

/-- On a successful run started with all keys of `out` already in `seen`,
the loop preserves pairwise distinctness of the stored `(sender, message)`
pairs — provided every input field is already trimmed, so that the stored
pair determines the dedup key. -/
lemma cleanGo_pairwise :
    ∀ (raw : List RawRecord) (seen : List String) (out res : List CanonicalMessage),
      (∀ r, r ∈ raw → TrimmedRec r) →
      (∀ e, e ∈ out → dedupKey e.sender e.message ∈ seen) →
      out.Pairwise DistinctPair →
      cleanGo seen out raw = Except.ok res →
      res.Pairwise DistinctPair := by
  intro raw
  induction raw with
  | nil =>
    intro seen out res _ _ hp h
    simp only [cleanGo, Except.ok.injEq] at h
    exact h ▸ hp
  | cons m rest ih =>
    intro seen out res ht hkeys hp h
    have htm : TrimmedRec m := ht m (List.mem_cons_self m rest)
    have htr : ∀ r, r ∈ rest → TrimmedRec r :=
      fun r hr => ht r (List.mem_cons_of_mem m hr)
    rcases cleanStep_cases m seen out with
      ⟨hstep, _, _⟩ |
      ⟨msg, hm, hu, hs, hstep⟩ |
      ⟨s0, msg, hs, hm, hu, hk, hstep⟩ |
      ⟨s0, msg, hs, hm, hu, hk, hw, hstep, _⟩ |
      ⟨s0, msg, role, tl, hs, hm, hu, hk, hw, hc, hstep⟩
    · simp only [cleanGo, hstep] at h
      exact ih seen out res htr hkeys hp h
    · simp [cleanGo, hstep] at h
    · simp only [cleanGo, hstep] at h
      exact ih seen out res htr hkeys hp h
    · simp [cleanGo, hstep] at h
    · simp only [cleanGo, hstep] at h
      have hts : pyStrip s0 = s0 := htm.1 s0 hs
      have htmsg : pyStrip msg = msg := htm.2 msg hm
      refine ih _ _ res htr ?_ ?_ h
      · intro e he
        rcases List.mem_append.mp he with he | he
        · exact List.mem_cons_of_mem _ (hkeys e he)
        · have : e = ⟨pyStrip s0, role, pyStrip msg⟩ := by simpa using he
          subst this
          simp only [hts, htmsg]
          exact List.mem_cons_self _ _
      · refine List.pairwise_append.mpr ⟨hp, List.pairwise_singleton _ _, ?_⟩
        intro a ha b hb
        have hb' : b = ⟨pyStrip s0, role, pyStrip msg⟩ := by simpa using hb
        subst hb'
        intro ⟨h1, h2⟩
        have hka := hkeys a ha
        rw [h1, h2, hts, htmsg] at hka
        exact hk hka

/-- A run over records that never trigger the two exceptions returns
normally. -/
lemma cleanGo_total :
    ∀ (raw : List RawRecord) (seen : List String) (out : List CanonicalMessage),
      (∀ r, r ∈ raw → SafeRec r) →
      ∃ res, cleanGo seen out raw = Except.ok res := by
  intro raw
  induction raw with
  | nil => intro seen out _; exact ⟨out, rfl⟩
  | cons m rest ih =>
    intro seen out hsafe
    have hsm : SafeRec m := hsafe m (List.mem_cons_self m rest)
    have hsr : ∀ r, r ∈ rest → SafeRec r :=
      fun r hr => hsafe r (List.mem_cons_of_mem m hr)
    rcases cleanStep_cases m seen out with
      ⟨hstep, _, _⟩ |
      ⟨msg, hm, hu, hs, hstep⟩ |
      ⟨s0, msg, hs, hm, hu, hk, hstep⟩ |
      ⟨s0, msg, hs, hm, hu, hk, hw, hstep, _⟩ |
      ⟨s0, msg, role, tl, hs, hm, hu, hk, hw, hc, hstep⟩
    · obtain ⟨res, hres⟩ := ih seen out hsr
      exact ⟨res, by simp only [cleanGo, hstep]; exact hres⟩
    · obtain ⟨s1, hs1, _⟩ := hsm (hm ▸ hu)
      rw [hs] at hs1
      cases hs1
    · obtain ⟨res, hres⟩ := ih seen out hsr
      exact ⟨res, by simp only [cleanGo, hstep]; exact hres⟩
    · obtain ⟨s1, hs1, hw1⟩ := hsm (hm ▸ hu)
      rw [hs] at hs1
      cases hs1
      exact absurd hw (by simpa using hw1)
    · obtain ⟨res, hres⟩ := ih _ _ hsr
      exact ⟨res, by simp only [cleanGo, hstep]; exact hres⟩

/-- Inversion of `canonOf`: an emitted canonical form comes from a usable
record, with both stored fields the `strip` of the original fields. -/
lemma canonOf_some_inv (m : RawRecord) (c : CanonicalMessage)
    (h : canonOf m = some c) :
    ∃ s0 msg role tl, m.sender = some s0 ∧ m.message = some msg ∧ msg ≠ "" ∧
      msg ≠ "<Media omitted>" ∧ pySplitWs (pyStrip s0) = role :: tl ∧
      c = ⟨pyStrip s0, role, pyStrip msg⟩ := by
  rcases hm : m.message with _ | msg
  · simp [canonOf, hm] at h
  · by_cases h0 : msg = ""
    · simp [canonOf, hm, h0] at h
    · by_cases h1 : msg = "<Media omitted>"
      · simp [canonOf, hm, h0, h1] at h
      · rcases hs : m.sender with _ | s0
        · simp [canonOf, hm, h0, h1, hs] at h
        · rcases hw : pySplitWs (pyStrip s0) with _ | ⟨role, tl⟩
          · simp [canonOf, hm, h0, h1, hs, hw] at h
          · have hc : c = ⟨pyStrip s0, role, pyStrip msg⟩ := by
              simp [canonOf, hm, h0, h1, hs, hw] at h
              exact h.symm
            exact ⟨s0, msg, role, tl, rfl, rfl, h0, h1, hw, hc⟩

/-- C2 counterexample: the dedup key is computed from the *untrimmed*
fields, so the records `("Alice", "hi")` and `(" Alice", "hi")` have
different keys yet both are emitted with the identical stored (trimmed)
pair `("Alice", "hi")` — the claimed pairwise distinctness of stored pairs
fails. -/
theorem clean_messages_trimmed_pair_cex :
    clean_messages [⟨some "Alice", some "hi"⟩, ⟨some " Alice", some "hi"⟩] =
      Except.ok [⟨"Alice", "Alice", "hi"⟩, ⟨"Alice", "Alice", "hi"⟩] ∧
    ¬ List.Pairwise DistinctPair
        [(⟨"Alice", "Alice", "hi"⟩ : CanonicalMessage), ⟨"Alice", "Alice", "hi"⟩] := by
  constructor
  · rfl
  · intro h
    exact (List.pairwise_cons.mp h).1 _ (List.mem_singleton_self _) ⟨rfl, rfl⟩

/-- C2 (amended): when every input field is already whitespace-trimmed —
so that the untrimmed dedup key determines the stored pair — a successful
`clean_messages` run emits no two entries with the same stored
`(sender, message)` pair, and the output follows input order (it is a
sub-list of the per-record canonical forms, first occurrence of each key
winning). -/
theorem clean_messages_dedup_of_trimmed (raw : List RawRecord)
    (res : List CanonicalMessage) (ht : ∀ r, r ∈ raw → TrimmedRec r)
    (h : clean_messages raw = Except.ok res) :
    List.Pairwise DistinctPair res ∧ List.Sublist res (raw.filterMap canonOf) := by
  constructor
  · exact cleanGo_pairwise raw [] [] res ht (by simp) List.Pairwise.nil h
  · obtain ⟨tail, htail, hsub⟩ := cleanGo_sublist raw [] [] res h
    rw [htail]
    simpa using hsub

/-- Witness for `clean_messages_dedup_of_trimmed` on a concrete transcript
with one exact duplicate. -/
theorem clean_messages_dedup_of_trimmed_witness :
    List.Pairwise DistinctPair
      [(⟨"Alice", "Alice", "hi"⟩ : CanonicalMessage), ⟨"Bob", "Bob", "yo"⟩] ∧
    List.Sublist [(⟨"Alice", "Alice", "hi"⟩ : CanonicalMessage), ⟨"Bob", "Bob", "yo"⟩]
      (List.filterMap canonOf
        [⟨some "Alice", some "hi"⟩, ⟨some "Alice", some "hi"⟩,
         ⟨some "Bob", some "yo"⟩]) :=
  clean_messages_dedup_of_trimmed
    [⟨some "Alice", some "hi"⟩, ⟨some "Alice", some "hi"⟩, ⟨some "Bob", some "yo"⟩]
    [⟨"Alice", "Alice", "hi"⟩, ⟨"Bob", "Bob", "yo"⟩] (by decide) (by rfl)

/-- C3 counterexample: a record with a missing `sender` key but a usable
message makes `clean_messages` raise `KeyError` (line 49 accesses
`m["sender"]` unconditionally) instead of silently dropping the record. -/
theorem clean_messages_missing_sender_cex :
    clean_messages [⟨none, some "hi"⟩] = Except.error CleanErr.keyError := rfl

/-- C3 (amended): `clean_messages` returns normally when every record with
a usable message has a present sender whose trimmed text contains a first
whitespace-delimited token; records whose message is absent, empty or the
media sentinel are silently dropped regardless of their shape. -/
theorem clean_messages_no_raise_of_safe (raw : List RawRecord)
    (hs : ∀ r, r ∈ raw → SafeRec r) :
    ∃ res, clean_messages raw = Except.ok res :=
  cleanGo_total raw [] [] hs

/-- Witness for `clean_messages_no_raise_of_safe`: a malformed record with
no message at all is dropped without an error. -/
theorem clean_messages_no_raise_of_safe_witness :
    ∃ res, clean_messages [⟨some "Alice", some "hi"⟩, ⟨some "Bob", none⟩] =
      Except.ok res :=
  clean_messages_no_raise_of_safe
    [⟨some "Alice", some "hi"⟩, ⟨some "Bob", none⟩] (by decide)

/-- C4 counterexample: a whitespace-only message `"   "` is truthy and not
the sentinel, so it is not skipped, but it is stored trimmed — the emitted
entry has an empty `message`. -/
theorem clean_messages_blank_message_cex :
    clean_messages [⟨some "Alice", some "   "⟩] =
      Except.ok [⟨"Alice", "Alice", ""⟩] ∧
    (CanonicalMessage.mk "Alice" "Alice" "").message = "" := ⟨rfl, rfl⟩

/-- C4 (amended): every emitted message is the `strip` of the message of
one of the *input records*, a message that was non-empty and not the media
sentinel *before* trimming (the skip test runs on the untrimmed text, so a
whitespace-only or whitespace-padded sentinel message can still be
emitted). -/
theorem clean_messages_message_origin (raw : List RawRecord)
    (res : List CanonicalMessage) (h : clean_messages raw = Except.ok res) :
    ∀ e, e ∈ res → ∃ m t, m ∈ raw ∧ m.message = some t ∧ t ≠ "" ∧
      t ≠ "<Media omitted>" ∧ e.message = pyStrip t := by
  obtain ⟨tail, htail, hsub⟩ := cleanGo_sublist raw [] [] res h
  intro e he
  have hmem : e ∈ raw.filterMap canonOf := by
    refine hsub.subset ?_
    rw [htail] at he
    simpa using he
  rw [List.mem_filterMap] at hmem
  obtain ⟨m, hmraw, hc⟩ := hmem
  obtain ⟨s0, msg, role, tl, _, hmsg, h0, h1, _, hce⟩ := canonOf_some_inv m e hc
  exact ⟨m, msg, hmraw, hmsg, h0, h1, by rw [hce]⟩

/-- Witness for `clean_messages_message_origin` on a padded message: the
emitted `"hi"` is the strip of the input record's message `" hi "`. -/
theorem clean_messages_message_origin_witness :
    ∃ m t, m ∈ [RawRecord.mk (some "A") (some " hi ")] ∧ m.message = some t ∧
      t ≠ "" ∧ t ≠ "<Media omitted>" ∧
      (CanonicalMessage.mk "A" "A" "hi").message = pyStrip t :=
  clean_messages_message_origin [⟨some "A", some " hi "⟩] [⟨"A", "A", "hi"⟩]
    (by rfl) ⟨"A", "A", "hi"⟩ (List.mem_singleton_self _)

/-- C9: the dedup key `sender + ":" + message` is not injective in the
`(sender, message)` pair: `("a:b", "c")` and `("a", "b:c")` share the key
`"a:b:c"`, so the second (non-duplicate) record is dropped from the
output. -/
theorem dedup_key_collision :
    dedupKey "a:b" "c" = dedupKey "a" "b:c" ∧
    clean_messages [⟨some "a:b", some "c"⟩, ⟨some "a", some "b:c"⟩] =
      Except.ok [⟨"a:b", "a:b", "c"⟩] ∧
    ¬ ((("a:b" : String), ("c" : String)) = ("a", "b:c")) :=
  ⟨rfl, rfl, by decide⟩

/-! ## Reply Generator retry loop (`gen_reply`, app.py lines 135-150)

The generation backend `co.generate` is modelled as a function from the
attempt number to either an error (of an abstract type `ε`) or a list of
candidate texts; `response.generations[0]` and `.strip()` both run inside
the `try` block, so an empty candidate list is itself a caught exception
(`IndexError`). `time.sleep(delay)` has no observable effect on the
result and is not modelled. Falling off the loop when `retries = 0`
returns Python `None`, modelled as `Except.ok none`. -/

inductive GenErr (ε : Type) where
  | service (e : ε)
  | indexError
deriving DecidableEq

/-- The body of the `try` block at attempt `i`: call the service, take the
first candidate, strip it. -/
def attemptBody (svc : Nat → Except ε (List String)) (i : Nat) :
    Except (GenErr ε) String :=
  match svc i with
  | Except.error e => Except.error (GenErr.service e)
  | Except.ok [] => Except.error GenErr.indexError
  | Except.ok (t :: _) => Except.ok (pyStrip t)

/-- `for attempt in range(retries)` with `remaining` iterations left,
starting at attempt number `attempt`: on an exception, re-raise if this was
the last attempt, otherwise sleep and continue. -/
def retryFrom (svc : Nat → Except ε (List String)) :
    Nat → Nat → Except (GenErr ε) (Option String)
  | 0, _ => Except.ok none
  | remaining + 1, attempt =>
    match attemptBody svc attempt with
    | Except.ok t => Except.ok (some t)
    | Except.error e =>
      match remaining with
      | 0 => Except.error e
      | r + 1 => retryFrom svc (r + 1) (attempt + 1)

/-- The retry loop of `gen_reply` with `retries` total attempts. -/
def gen_reply_attempts (svc : Nat → Except ε (List String)) (retries : Nat) :
    Except (GenErr ε) (Option String) :=
  retryFrom svc retries 0

/-- C5: with `retries = 3`, if the service fails on the first two attempts
and succeeds on the third, the result is the successful call's first
candidate stripped of surrounding whitespace; if it fails on all three,
the loop raises the last underlying error. -/
theorem gen_reply_retry_spec {ε : Type} (svc : Nat → Except ε (List String))
    (e0 e1 : ε) (h0 : svc 0 = Except.error e0) (h1 : svc 1 = Except.error e1) :
    (∀ t rest, svc 2 = Except.ok (t :: rest) →
      gen_reply_attempts svc 3 = Except.ok (some (pyStrip t))) ∧
    (∀ e2, svc 2 = Except.error e2 →
      gen_reply_attempts svc 3 = Except.error (GenErr.service e2)) := by
  constructor
  · intro t rest h2
    simp [gen_reply_attempts, retryFrom, attemptBody, h0, h1, h2]
  · intro e2 h2
    simp [gen_reply_attempts, retryFrom, attemptBody, h0, h1, h2]

/-- Witness for `gen_reply_retry_spec`: a service failing twice then
returning the single candidate `" hi "` yields `"hi"`. -/
theorem gen_reply_retry_spec_witness :
    gen_reply_attempts
      (fun i => if i = 0 then Except.error 0
        else if i = 1 then Except.error 1 else Except.ok [" hi "]) 3 =
      Except.ok (some "hi") := by
  have h := (gen_reply_retry_spec
    (fun i => if i = 0 then Except.error 0
      else if i = 1 then Except.error 1 else Except.ok [" hi "])
    0 1 rfl rfl).1 " hi " [] rfl
  rw [h]
  rfl

/-! ## Recent-history formatting (`format_history_for_prompt`, app.py 76-92) -/

/-- Python slice `history[-limit:]`. Note `history[-0:]` is the whole
list, and a `limit` larger than the length clamps to the whole list. -/
def pyTakeLast (l : List String) (limit : Nat) : List String :=
  if limit = 0 then l else l.drop (l.length - limit)

/-- The per-entry rewriting of the loop body: a `"You:"`-prefixed entry is
shown under `user_name`; otherwise an entry prefixed with the persona's
label `f"{role_name}:"` is re-rendered; anything else passes through. -/
def rewriteEntry (user_name role_name entry : String) : String :=
  if pyStartsWith entry "You:" then user_name ++ ": " ++ pyStrip (pyDrop entry 4)
  else if pyStartsWith entry (role_name ++ ":") then
    role_name ++ ": " ++ pyStrip (pyDrop entry (pyLen role_name + 1))
  else entry

/-- `format_history_for_prompt(history, user_name, role_name, limit)`. -/
def format_history_for_prompt (history : List String)
    (user_name role_name : String) (limit : Nat) : List String :=
  (pyTakeLast history limit).map (rewriteEntry user_name role_name)

-- sanity scratch
example : format_history_for_prompt
    ["h1", "You: a", "Alice: b", "You: c", "Alice: d", "You: e", "Alice: f", "You: g"]
    "Meena" "Alice" 6 =
    ["Alice: b", "You: c", "Alice: d", "You: e", "Alice: f", "You: g"].map
      (rewriteEntry "Meena" "Alice") := by decide
example : rewriteEntry "Meena" "Alice" "You:  x " = "Meena: x" := by decide
example : rewriteEntry "Meena" "Alice" "Alice:  y" = "Alice: y" := by decide
example : rewriteEntry "Meena" "Alice" "Bob: z" = "Bob: z" := by decide

/-- C8: with window 6 the formatted block is exactly the last
`min (length, 6)` history entries, in oldest-first order, each rewritten:
`"You:"`-prefixed entries get the configured display name, entries with
the persona's label are re-rendered with the persona name, and entries
matching neither pattern pass through unchanged. -/
theorem format_history_window (history : List String) (u r : String) :
    (∃ pre kept, history = pre ++ kept ∧ kept.length = min history.length 6 ∧
      format_history_for_prompt history u r 6 = kept.map (rewriteEntry u r)) ∧
    (∀ e, pyStartsWith e "You:" = true →
      rewriteEntry u r e = u ++ ": " ++ pyStrip (pyDrop e 4)) ∧
    (∀ e, pyStartsWith e "You:" = false → pyStartsWith e (r ++ ":") = true →
      rewriteEntry u r e = r ++ ": " ++ pyStrip (pyDrop e (pyLen r + 1))) ∧
    (∀ e, pyStartsWith e "You:" = false → pyStartsWith e (r ++ ":") = false →
      rewriteEntry u r e = e) := by
  refine ⟨⟨history.take (history.length - 6), history.drop (history.length - 6),
    (List.take_append_drop _ _).symm, ?_, ?_⟩, ?_, ?_, ?_⟩
  · rw [List.length_drop]
    omega
  · simp [format_history_for_prompt, pyTakeLast]
  · intro e he
    simp [rewriteEntry, he]
  · intro e he1 he2
    simp [rewriteEntry, he1, he2]
  · intro e he1 he2
    simp [rewriteEntry, he1, he2]

/-- Witness for `format_history_window`: the rewrite of a concrete
`"You:"`-prefixed entry. -/
theorem format_history_window_witness :
    rewriteEntry "Meena" "Alice" "You: hello" =
      "Meena" ++ ": " ++ pyStrip (pyDrop "You: hello" 4) :=
  (format_history_window ["You: hello"] "Meena" "Alice").2.1 "You: hello" (by decide)

/-! ## Session state and `on_message` (app.py lines 153-249)

`Session` holds the FAISS store (abstract type `ι`, `None` initially), the
history, the role list and the active role. The upload branch
(lines 203-225) and the chat branch (lines 229-249) are modelled as state
transformers returning the new session and the observable outcome;
`build_vector` and `gen_reply` are abstract fallible parameters (their
exceptions propagate to `on_message`). -/

structure Session (ι : Type) where
  vector : Option ι
  history : List String
  roles : List String
  role : Option String
deriving DecidableEq

/-- Python string `<` (lexicographic by code point). -/
def charsLt : List Char → List Char → Bool
  | [], [] => false
  | [], _ :: _ => true
  | _ :: _, [] => false
  | a :: as, b :: bs => if a < b then true else if b < a then false else charsLt as bs

/-- Insertion step of `sorted`. -/
def insertSorted (x : String) : List String → List String
  | [] => [x]
  | y :: ys => if charsLt y.data x.data then y :: insertSorted x ys else x :: y :: ys

/-- Python `sorted` on a list of strings (ascending, stable). -/
def pySorted (l : List String) : List String := l.foldr insertSorted []

/-- Python `sorted({m["role"] for m in cleaned})`: the distinct roles in
ascending order (`eraseDups` keeps first occurrences; order is then fixed
by the sort). -/
def sortedRoles (cleaned : List CanonicalMessage) : List String :=
  pySorted ((cleaned.map CanonicalMessage.role).eraseDups)

/-- Observable outcome of the `.json`-attachment upload branch. -/
inductive UploadOutcome (ε : Type) where
  | cleanRaised (e : CleanErr)
  | noUsable
  | buildRaised (e : ε)
  | processed
deriving DecidableEq

/-- The upload branch of `on_message` (lines 207-225): normalize, reject
an empty result, build the store, then replace `vector`/`roles` and clear
`role`/`history`. An exception from `clean_messages` or `build_vector`
escapes before any assignment, leaving the session as it was. -/
def handle_upload (bv : List CanonicalMessage → Except ε ι) (s : Session ι)
    (raw : List RawRecord) : Session ι × UploadOutcome ε :=
  match clean_messages raw with
  | Except.error e => (s, UploadOutcome.cleanRaised e)
  | Except.ok cleaned =>
    if cleaned = [] then (s, UploadOutcome.noUsable)
    else
      match bv cleaned with
      | Except.error e => (s, UploadOutcome.buildRaised e)
      | Except.ok v =>
        (⟨some v, [], sortedRoles cleaned, none⟩, UploadOutcome.processed)

/-- Observable outcome of the chat branch. -/
inductive ChatOutcome (γ : Type) where
  | guidance
  | genRaised (e : γ)
  | replied (text : String)
deriving DecidableEq

/-- The chat branch of `on_message` (lines 229-249): if `session.vector`
or `session.role` is falsy (unset, or an empty role string), send the
guidance message; otherwise append the user's entry to the history, call
`gen_reply` (argument order: message, store, history-after-append, role),
and append the persona entry only on success. -/
def handle_chat (gen : String → ι → List String → String → Except γ String)
    (s : Session ι) (content : String) : Session ι × ChatOutcome γ :=
  match s.vector with
  | none => (s, ChatOutcome.guidance)
  | some v =>
    match s.role with
    | none => (s, ChatOutcome.guidance)
    | some r =>
      if r = "" then (s, ChatOutcome.guidance)
      else
        match gen content v (s.history ++ ["You: " ++ content]) r with
        | Except.error e =>
          (⟨s.vector, s.history ++ ["You: " ++ content], s.roles, s.role⟩,
            ChatOutcome.genRaised e)
        | Except.ok reply =>
          (⟨s.vector, (s.history ++ ["You: " ++ content]) ++ [r ++ ": " ++ reply],
            s.roles, s.role⟩, ChatOutcome.replied reply)

/-- C6: a failed upload — the normalizer raising, a normalized result that
is empty, or the index build raising — leaves every field of the session
exactly as it was; the fields are replaced (vector set, roles replaced,
role and history cleared) only when normalization is non-empty and the
index build succeeds. -/
theorem upload_failure_frame {ε ι : Type}
    (bv : List CanonicalMessage → Except ε ι) (s : Session ι)
    (raw : List RawRecord) :
    ((handle_upload bv s raw).2 ≠ UploadOutcome.processed →
      (handle_upload bv s raw).1 = s) ∧
    ((handle_upload bv s raw).2 = UploadOutcome.processed →
      ∃ cleaned v, clean_messages raw = Except.ok cleaned ∧ cleaned ≠ [] ∧
        bv cleaned = Except.ok v ∧
        (handle_upload bv s raw).1 = ⟨some v, [], sortedRoles cleaned, none⟩) := by
  rcases hc : clean_messages raw with e | cleaned
  · constructor
    · intro _
      simp [handle_upload, hc]
    · intro h
      simp [handle_upload, hc] at h
  · by_cases h0 : cleaned = []
    · constructor
      · intro _
        simp [handle_upload, hc, h0]
      · intro h
        simp [handle_upload, hc, h0] at h
    · rcases hb : bv cleaned with e | v
      · constructor
        · intro _
          simp [handle_upload, hc, h0, hb]
        · intro h
          simp [handle_upload, hc, h0, hb] at h
      · constructor
        · intro h
          exact absurd (by simp [handle_upload, hc, h0, hb]) h
        · intro _
          exact ⟨cleaned, v, rfl, h0, hb, by simp [handle_upload, hc, h0, hb]⟩

/-- Witness for `upload_failure_frame`: an upload whose transcript
normalizes to nothing leaves a populated session untouched. -/
theorem upload_failure_frame_witness :
    (handle_upload (fun _ => Except.error ())
      (⟨some (), ["You: a"], ["Alice"], some "Alice"⟩ : Session Unit) []).1 =
      ⟨some (), ["You: a"], ["Alice"], some "Alice"⟩ :=
  (upload_failure_frame (fun _ => Except.error ())
    (⟨some (), ["You: a"], ["Alice"], some "Alice"⟩ : Session Unit) []).1 (by decide)

/-- C7: if the session's index or active role is unset when a reply is
requested, the chat branch returns the guidance outcome and the session
unchanged — for *every* generation backend, i.e. no retrieval or
generation call can influence the result. -/
theorem chat_guidance_on_missing {γ ι : Type}
    (gen : String → ι → List String → String → Except γ String)
    (s : Session ι) (content : String) (h : s.vector = none ∨ s.role = none) :
    handle_chat gen s content = (s, ChatOutcome.guidance) := by
  rcases h with h | h
  · simp [handle_chat, h]
  · rcases hv : s.vector with _ | v
    · simp [handle_chat, hv]
    · simp [handle_chat, hv, h]

/-- Witness for `chat_guidance_on_missing` on a fresh session. -/
theorem chat_guidance_on_missing_witness :
    handle_chat (fun _ _ _ _ => Except.error ())
      (⟨none, [], [], none⟩ : Session Unit) "hi" =
      (⟨none, [], [], none⟩, ChatOutcome.guidance) :=
  chat_guidance_on_missing (fun _ _ _ _ => Except.error ())
    (⟨none, [], [], none⟩ : Session Unit) "hi" (Or.inl rfl)

/-- C10: the chat branch appends the user's `"You: <message>"` entry
before calling the generator; when generation fails the history keeps
that entry as its last element and no persona entry is appended (no
rollback); the persona entry `"<role>: <reply>"` is appended only on
success. -/
theorem chat_history_no_rollback {γ ι : Type}
    (gen : String → ι → List String → String → Except γ String)
    (s : Session ι) (content : String) (v : ι) (r : String)
    (hv : s.vector = some v) (hr : s.role = some r) (hr0 : r ≠ "") :
    (∀ e, gen content v (s.history ++ ["You: " ++ content]) r = Except.error e →
      handle_chat gen s content =
        (⟨s.vector, s.history ++ ["You: " ++ content], s.roles, s.role⟩,
          ChatOutcome.genRaised e)) ∧
    (∀ reply, gen content v (s.history ++ ["You: " ++ content]) r =
        Except.ok reply →
      handle_chat gen s content =
        (⟨s.vector, (s.history ++ ["You: " ++ content]) ++ [r ++ ": " ++ reply],
          s.roles, s.role⟩, ChatOutcome.replied reply)) := by
  constructor
  · intro e hg
    simp [handle_chat, hv, hr, hr0, hg]
  · intro reply hg
    simp [handle_chat, hv, hr, hr0, hg]

/-- Witness for `chat_history_no_rollback`: a generator that always fails
leaves the user's entry appended and no persona entry. -/
theorem chat_history_no_rollback_witness :
    handle_chat (fun _ _ _ _ => Except.error ())
      (⟨some (), ["You: a"], ["Alice"], some "Alice"⟩ : Session Unit) "b" =
      (⟨some (), ["You: a", "You: b"], ["Alice"], some "Alice"⟩,
        ChatOutcome.genRaised ()) := by
  have h := (chat_history_no_rollback (fun _ _ _ _ => Except.error ())
    (⟨some (), ["You: a"], ["Alice"], some "Alice"⟩ : Session Unit) "b" () "Alice"
    rfl rfl (by decide)).1 () rfl
  exact h

end MimicBot
